import Mathlib

/-!
Verification of the per-pixel fitting core of the AnniesLasso Cannon model
(`AnniesLasso/cannon.py` and `AnniesLasso/regularized.py`).

The embedding works over an arbitrary linearly ordered field `F` with
decidable equality (instantiated at `ℚ` for concrete evaluations).  Numpy
arrays indexed by stars become functions `Fin N → F`, the design matrix
becomes `Matrix (Fin N) (Fin (k+1)) F` (column 0 is the bias column, so the
number of terms is always positive, as in the source where the fallback
`np.hstack([1, [0] * (K - 1)])` assumes `K ≥ 1`).  `np.inf` sentinels that
the code stores in result arrays are modelled by `⊤ : WithTop F`.  The
black-box numerical primitives (`scipy.optimize.fmin_powell`, `np.sqrt`) are
modelled as explicit function parameters, since the source invokes them as
external routines.  Exact singularity (`np.linalg.LinAlgError` on
`np.linalg.inv`) corresponds to a vanishing determinant.
-/

set_option linter.unusedSectionVars false

namespace AnniesLasso

variable {F : Type} [LinearOrderedField F] [DecidableEq F]
variable {N P k : ℕ}

/-- Executable determinant by Laplace expansion along the first row; equal to
`Matrix.det` (which is not kernel-reducible) by `detExec_eq_det`. -/
def detExec : {n : ℕ} → Matrix (Fin n) (Fin n) F → F
  | 0, _ => 1
  | n + 1, A =>
      ∑ j : Fin (n + 1),
        (-1) ^ (j : ℕ) * A 0 j * detExec (A.submatrix Fin.succ j.succAbove)

theorem detExec_eq_det : ∀ {n : ℕ} (A : Matrix (Fin n) (Fin n) F),
    detExec A = A.det
  | 0, A => by simp [detExec]
  | n + 1, A => by
      rw [Matrix.det_succ_row_zero, detExec]
      exact Finset.sum_congr rfl fun j _ => by rw [detExec_eq_det]

/-- Executable adjugate; equal to `Matrix.adjugate` by
`adjugateExec_eq_adjugate`. -/
def adjugateExec (A : Matrix (Fin (k + 1)) (Fin (k + 1)) F) :
    Matrix (Fin (k + 1)) (Fin (k + 1)) F :=
  Matrix.of fun i j => detExec (A.updateRow j (Pi.single i 1))

theorem adjugateExec_eq_adjugate (A : Matrix (Fin (k + 1)) (Fin (k + 1)) F) :
    adjugateExec A = A.adjugate := by
  ext i j
  rw [Matrix.adjugate_apply, adjugateExec, Matrix.of_apply, detExec_eq_det]

/-- Effective inverse variance, `cannon.py` line 362:
`ivar = normalized_ivar/(1. + normalized_ivar * scatter**2)`. -/
def ivarEff (ivar : Fin N → F) (scatter : F) : Fin N → F :=
  fun i => ivar i / (1 + ivar i * scatter ^ 2)

/-- The row-scaled design matrix, `cannon.py` line 363:
`CiA = design_matrix * np.tile(ivar, (design_matrix.shape[1], 1)).T`,
that is, entry `(i, j)` is `D i j * w i`. -/
def scaledDesign (D : Matrix (Fin N) (Fin (k + 1)) F) (w : Fin N → F) :
    Matrix (Fin N) (Fin (k + 1)) F :=
  Matrix.of fun i j => D i j * w i

/-- The normal-equations matrix `np.dot(design_matrix.T, CiA)` from
`cannon.py` line 365. -/
def normalMatrix (D : Matrix (Fin N) (Fin (k + 1)) F) (w : Fin N → F) :
    Matrix (Fin (k + 1)) (Fin (k + 1)) F :=
  D.transpose * scaledDesign D w

/-- Exact-arithmetic model of `np.linalg.inv` inside the
`try ... except np.linalg.linalg.LinAlgError` block of `_fit_theta`:
`none` models the raised `LinAlgError` (the matrix is singular, i.e. its
determinant vanishes), otherwise the inverse is returned (by Cramer's rule,
`A⁻¹ = A.det⁻¹ • A.adjugate`). -/
def matInv (A : Matrix (Fin (k + 1)) (Fin (k + 1)) F) :
    Option (Matrix (Fin (k + 1)) (Fin (k + 1)) F) :=
  if detExec A = 0 then none else some ((detExec A)⁻¹ • adjugateExec A)

/-- The fallback coefficient vector from `cannon.py` line 368:
`np.hstack([1, [0] * (design_matrix.shape[1] - 1)])`. -/
def fallbackTheta (k : ℕ) : Fin (k + 1) → F :=
  fun j => if j = 0 then 1 else 0

/-- Embedding of `_fit_theta` (`cannon.py` lines 340-373).  Returns
`(theta, ATCiAinv, inv_var)`; on a singular normal-equations matrix the
`except` branch returns the bias-only fallback with `None` in place of the
inverse. -/
def fit_theta (flux ivar : Fin N → F) (scatter : F)
    (D : Matrix (Fin N) (Fin (k + 1)) F) :
    (Fin (k + 1) → F) × Option (Matrix (Fin (k + 1)) (Fin (k + 1)) F) × (Fin N → F) :=
  let w := ivarEff ivar scatter
  match matInv (normalMatrix D w) with
  | none => (fallbackTheta k, none, w)
  | some ATCiAinv =>
      (ATCiAinv.mulVec (D.transpose.mulVec fun i => flux i * w i), some ATCiAinv, w)

theorem matInv_of_det_ne_zero (A : Matrix (Fin (k + 1)) (Fin (k + 1)) F)
    (hA : A.det ≠ 0) : matInv A = some (A.det⁻¹ • A.adjugate) := by
  rw [matInv, detExec_eq_det, adjugateExec_eq_adjugate, if_neg hA]

theorem matInv_of_det_eq_zero (A : Matrix (Fin (k + 1)) (Fin (k + 1)) F)
    (hA : A.det = 0) : matInv A = none := by
  rw [matInv, detExec_eq_det, if_pos hA]

theorem mul_matInv_eq_one (A : Matrix (Fin (k + 1)) (Fin (k + 1)) F)
    (hA : A.det ≠ 0) : A * (A.det⁻¹ • A.adjugate) = 1 := by
  rw [Matrix.mul_smul, Matrix.mul_adjugate, smul_smul, inv_mul_cancel₀ hA, one_smul]

theorem matInv_mul_eq_one (A : Matrix (Fin (k + 1)) (Fin (k + 1)) F)
    (hA : A.det ≠ 0) : (A.det⁻¹ • A.adjugate) * A = 1 := by
  rw [Matrix.smul_mul, Matrix.adjugate_mul, smul_smul, inv_mul_cancel₀ hA, one_smul]

theorem scaledDesign_eq_diagonal_mul (D : Matrix (Fin N) (Fin (k + 1)) F)
    (w : Fin N → F) : scaledDesign D w = Matrix.diagonal w * D := by
  ext i j
  simp [scaledDesign, Matrix.diagonal_mul, mul_comm]

/-- C1: `_fit_theta` computes the effective inverse variance
`ivar_eff = ivar / (1 + ivar * scatter^2)` elementwise, and when the
normal-equations matrix `A = Dᵀ · diag(ivar_eff) · D` is invertible it
returns `theta` satisfying `A · theta = Dᵀ (flux · ivar_eff)` together with
`A⁻¹` (a genuine two-sided inverse of `A`) and `ivar_eff`. -/
theorem fit_theta_solves_normal_equations
    (flux ivar : Fin N → F) (scatter : F) (D : Matrix (Fin N) (Fin (k + 1)) F)
    (hA : (normalMatrix D (ivarEff ivar scatter)).det ≠ 0) :
    (∀ i, ivarEff ivar scatter i = ivar i / (1 + ivar i * scatter ^ 2)) ∧
    (fit_theta flux ivar scatter D).2.2 = ivarEff ivar scatter ∧
    normalMatrix D (ivarEff ivar scatter)
      = D.transpose * (Matrix.diagonal (ivarEff ivar scatter) * D) ∧
    ∃ Ainv,
      (fit_theta flux ivar scatter D).2.1 = some Ainv ∧
      normalMatrix D (ivarEff ivar scatter) * Ainv = 1 ∧
      Ainv * normalMatrix D (ivarEff ivar scatter) = 1 ∧
      (normalMatrix D (ivarEff ivar scatter)).mulVec (fit_theta flux ivar scatter D).1
        = D.transpose.mulVec (fun i => flux i * ivarEff ivar scatter i) := by
  set w := ivarEff ivar scatter with hw
  set A := normalMatrix D w with hAdef
  refine ⟨fun i => rfl, ?_, ?_, ?_⟩
  · simp [fit_theta, matInv_of_det_ne_zero _ hA]
  · rw [hAdef, normalMatrix, scaledDesign_eq_diagonal_mul]
  · refine ⟨A.det⁻¹ • A.adjugate, ?_, mul_matInv_eq_one A hA, matInv_mul_eq_one A hA, ?_⟩
    · simp [fit_theta, matInv_of_det_ne_zero _ hA]
    · have h1 : (fit_theta flux ivar scatter D).1
          = (A.det⁻¹ • A.adjugate).mulVec (D.transpose.mulVec fun i => flux i * w i) := by
        simp [fit_theta, matInv_of_det_ne_zero _ hA]
      rw [h1, Matrix.mulVec_mulVec, mul_matInv_eq_one A hA, Matrix.one_mulVec]

/-- Witness for C1 at a concrete input: one star, bias-only design matrix
`D = [[1]]`, `flux = [2]`, `ivar = [1]`, `scatter = 0`. -/
theorem fit_theta_solves_normal_equations_witness :
    (normalMatrix !![(1 : ℚ)] (ivarEff (fun _ : Fin 1 => 1) 0)).det ≠ 0 ∧
    ((∀ i, ivarEff (fun _ : Fin 1 => (1 : ℚ)) 0 i
        = (fun _ : Fin 1 => (1 : ℚ)) i / (1 + (fun _ : Fin 1 => (1 : ℚ)) i * 0 ^ 2)) ∧
    (fit_theta (fun _ : Fin 1 => (2 : ℚ)) (fun _ => 1) 0 !![(1 : ℚ)]).2.2
      = ivarEff (fun _ => 1) 0 ∧
    normalMatrix !![(1 : ℚ)] (ivarEff (fun _ : Fin 1 => 1) 0)
      = (!![(1 : ℚ)]).transpose * (Matrix.diagonal (ivarEff (fun _ : Fin 1 => 1) 0) * !![(1 : ℚ)]) ∧
    ∃ Ainv,
      (fit_theta (fun _ : Fin 1 => (2 : ℚ)) (fun _ => 1) 0 !![(1 : ℚ)]).2.1 = some Ainv ∧
      normalMatrix !![(1 : ℚ)] (ivarEff (fun _ : Fin 1 => 1) 0) * Ainv = 1 ∧
      Ainv * normalMatrix !![(1 : ℚ)] (ivarEff (fun _ : Fin 1 => 1) 0) = 1 ∧
      (normalMatrix !![(1 : ℚ)] (ivarEff (fun _ : Fin 1 => 1) 0)).mulVec
          (fit_theta (fun _ : Fin 1 => (2 : ℚ)) (fun _ => 1) 0 !![(1 : ℚ)]).1
        = (!![(1 : ℚ)]).transpose.mulVec
            (fun i => (fun _ : Fin 1 => (2 : ℚ)) i * ivarEff (fun _ : Fin 1 => 1) 0 i)) :=
  ⟨by simp [normalMatrix, scaledDesign, ivarEff, Matrix.det_fin_one, Matrix.mul_apply],
   fit_theta_solves_normal_equations _ _ _ _
     (by simp [normalMatrix, scaledDesign, ivarEff, Matrix.det_fin_one, Matrix.mul_apply])⟩

theorem fit_theta_of_det_ne_zero
    (flux ivar : Fin N → F) (scatter : F) (D : Matrix (Fin N) (Fin (k + 1)) F)
    (hA : (normalMatrix D (ivarEff ivar scatter)).det ≠ 0) :
    fit_theta flux ivar scatter D
      = (((normalMatrix D (ivarEff ivar scatter)).det⁻¹
            • (normalMatrix D (ivarEff ivar scatter)).adjugate).mulVec
            (D.transpose.mulVec fun i => flux i * ivarEff ivar scatter i),
         some ((normalMatrix D (ivarEff ivar scatter)).det⁻¹
            • (normalMatrix D (ivarEff ivar scatter)).adjugate),
         ivarEff ivar scatter) := by
  simp [fit_theta, matInv_of_det_ne_zero _ hA]

theorem fit_theta_of_det_eq_zero
    (flux ivar : Fin N → F) (scatter : F) (D : Matrix (Fin N) (Fin (k + 1)) F)
    (hA : (normalMatrix D (ivarEff ivar scatter)).det = 0) :
    fit_theta flux ivar scatter D = (fallbackTheta k, none, ivarEff ivar scatter) := by
  simp [fit_theta, matInv_of_det_eq_zero _ hA]

theorem fit_theta_mulVec
    (flux ivar : Fin N → F) (scatter : F) (D : Matrix (Fin N) (Fin (k + 1)) F)
    (hA : (normalMatrix D (ivarEff ivar scatter)).det ≠ 0) :
    (normalMatrix D (ivarEff ivar scatter)).mulVec (fit_theta flux ivar scatter D).1
      = D.transpose.mulVec (fun i => flux i * ivarEff ivar scatter i) := by
  rw [fit_theta_of_det_ne_zero flux ivar scatter D hA]
  rw [Matrix.mulVec_mulVec, mul_matInv_eq_one _ hA, Matrix.one_mulVec]

/-- Squaring as applied by `self.s2 = results[:, -1]**2` (`cannon.py` line
110) to entries that may be the `np.inf` sentinel: `inf ** 2 = inf`, and a
finite entry is squared. -/
def wsq (x : WithTop F) : WithTop F :=
  WithTop.map (fun q => q ^ 2) x

theorem wsq_coe (x : F) : wsq (x : WithTop F) = ((x ^ 2 : F) : WithTop F) := rfl

theorem wsq_top : wsq (⊤ : WithTop F) = (⊤ : WithTop F) := rfl

theorem coe_sq_ne_top (x : F) : ((x : WithTop F) ^ 2) ≠ ⊤ := by
  rw [← WithTop.coe_pow]
  exact WithTop.coe_ne_top

/-- Modelled from the spec: `model.py` (home of `model._chi_sq`) is not
among the sources; the spec defines chi-square as
`Σ ivar_eff · (flux − D·theta)²` over stars. -/
def chi_sq (theta : Fin (k + 1) → F) (D : Matrix (Fin N) (Fin (k + 1)) F)
    (flux : Fin N → F) (w : Fin N → F) : F :=
  ∑ i, w i * (flux i - D.mulVec theta i) ^ 2

/-- Modelled from the spec: `model.py` (home of `model._log_det`) is not
among the sources; the spec defines the log-determinant penalty as
`−Σ log(ivar_eff)`.  The logarithm is kept abstract as the parameter `lg`,
since only its pointwise application matters here. -/
def log_det (lg : F → F) (w : Fin N → F) : F :=
  -∑ i, lg (w i)

/-- `L1Norm` from `regularized.py` lines 405-412: `np.sum(np.abs(Q))`. -/
def L1Norm {m : ℕ} (Q : Fin m → F) : F :=
  ∑ i, |Q i|

/-- Embedding of `_fit_pixel_with_fixed_scatter` (`cannon.py` lines
306-337) in its default `__return_theta = False` form, which is the only
form this repository calls: `np.inf` on a singular matrix (modelled by `⊤`),
otherwise `chi_sq + log_det` at the fitted theta. -/
def fit_pixel_with_fixed_scatter (lg : F → F) (scatter : F)
    (flux ivar : Fin N → F) (D : Matrix (Fin N) (Fin (k + 1)) F) : WithTop F :=
  let r := fit_theta flux ivar scatter D
  match r.2.1 with
  | none => ⊤
  | some _ => ((chi_sq r.1 D flux r.2.2 + log_det lg r.2.2 : F) : WithTop F)

/-- Embedding of `_fit_pixel` (`cannon.py` lines 253-303).  The scalar
Powell optimiser `op.fmin_powell` is a black-box numerical primitive and is
modelled by the parameter `poS` (objective and starting point to optimum);
its `warnflag` handling is logging only and has no effect on the returned
value.  The returned row `np.hstack([theta, scatter])` is modelled as the
pair (theta, scatter); the scatter slot holds `⊤` for the `np.inf`
sentinel. -/
def fit_pixel (poS : (F → WithTop F) → F → F) (lg : F → F)
    (flux ivar : Fin N → F) (scatter : F) (D : Matrix (Fin N) (Fin (k + 1)) F)
    (fixed_scatter : Bool) : (Fin (k + 1) → F) × WithTop F :=
  let r := fit_theta flux ivar scatter D
  if r.2.1.isNone || fixed_scatter then
    (r.1, if fixed_scatter then (scatter : WithTop F) else (⊤ : WithTop F))
  else
    let op_scatter := poS (fun s => fit_pixel_with_fixed_scatter lg s flux ivar D) scatter
    ((fit_theta flux ivar op_scatter D).1, (op_scatter : WithTop F))

/-- Embedding of `_fit_pixel_with_fixed_regularization_and_fixed_scatter`
(`regularized.py` lines 415-444); the unused `scatter` argument is kept from
the source signature. -/
def fit_pixel_with_fixed_regularization_and_fixed_scatter (lg : F → F)
    (theta : Fin (k + 1) → F) (flux : Fin N → F) (inv_var : Fin N → F)
    (scatter : F) (regularization : F) (D : Matrix (Fin N) (Fin (k + 1)) F) : F :=
  chi_sq theta D flux inv_var + log_det lg inv_var
    + regularization * L1Norm (fun j : Fin k => theta j.succ)

/-- Embedding of `_fit_pixel_with_fixed_regularization` (`regularized.py`
lines 447-473).  The flat parameter vector `(scatter, *theta)` and its split
`parameters[0], parameters[1:]` are modelled by a pair. -/
def fit_pixel_with_fixed_regularization (lg : F → F)
    (parameters : F × (Fin (k + 1) → F)) (flux ivar : Fin N → F)
    (regularization : F) (D : Matrix (Fin N) (Fin (k + 1)) F) : F :=
  let scatter := parameters.1
  let theta := parameters.2
  let inv_var := ivarEff ivar scatter
  fit_pixel_with_fixed_regularization_and_fixed_scatter lg theta flux inv_var
    scatter regularization D

/-- Embedding of `_fit_regularized_pixel` (`regularized.py` lines 476-539).
The two Powell invocations (over theta alone when the scatter is fixed, and
over the joint `(scatter, theta)` vector otherwise) are modelled by the
black-box parameters `poT` and `poJ`; the `np.hstack`/slicing of the joint
parameter vector is modelled by the pair. -/
def fit_regularized_pixel
    (poT : ((Fin (k + 1) → F) → F) → (Fin (k + 1) → F) → (Fin (k + 1) → F))
    (poJ : (F × (Fin (k + 1) → F) → F) → F × (Fin (k + 1) → F) → F × (Fin (k + 1) → F))
    (lg : F → F) (flux ivar : Fin N → F) (scatter : F) (regularization : F)
    (D : Matrix (Fin N) (Fin (k + 1)) F) (fixed_scatter : Bool) :
    (Fin (k + 1) → F) × WithTop F :=
  let r := fit_theta flux ivar scatter D
  if r.2.1.isNone then
    (r.1, if fixed_scatter then (scatter : WithTop F) else (⊤ : WithTop F))
  else if fixed_scatter then
    (poT (fun t => fit_pixel_with_fixed_regularization_and_fixed_scatter lg t flux
        r.2.2 scatter regularization D) r.1,
     (scatter : WithTop F))
  else
    let p := poJ (fun q => fit_pixel_with_fixed_regularization lg q flux ivar
        regularization D) (scatter, r.1)
    (p.2, (p.1 : WithTop F))

/-- C2: on a singular normal-equations matrix `_fit_theta` does not raise:
it returns the bias-only fallback `[1, 0, ..., 0]` with `None` in place of
the inverse, and both callers (`_fit_pixel` and `_fit_regularized_pixel`)
return this fallback directly with the fixed scatter (or the `np.inf`
sentinel) and never invoke the scatter optimiser — the result is the same
for every possible optimiser `poS`/`poT`/`poJ`. -/
theorem fit_theta_singular_fallback
    (poS : (F → WithTop F) → F → F)
    (poT : ((Fin (k + 1) → F) → F) → (Fin (k + 1) → F) → (Fin (k + 1) → F))
    (poJ : (F × (Fin (k + 1) → F) → F) → F × (Fin (k + 1) → F) → F × (Fin (k + 1) → F))
    (lg : F → F) (fixed_scatter : Bool)
    (flux ivar : Fin N → F) (scatter regularization : F)
    (D : Matrix (Fin N) (Fin (k + 1)) F)
    (hA : (normalMatrix D (ivarEff ivar scatter)).det = 0) :
    fit_theta flux ivar scatter D = (fallbackTheta k, none, ivarEff ivar scatter) ∧
    fallbackTheta k 0 = (1 : F) ∧
    (∀ j : Fin (k + 1), j ≠ 0 → fallbackTheta k j = (0 : F)) ∧
    fit_pixel poS lg flux ivar scatter D fixed_scatter
      = (fallbackTheta k,
         if fixed_scatter then (scatter : WithTop F) else (⊤ : WithTop F)) ∧
    fit_regularized_pixel poT poJ lg flux ivar scatter regularization D fixed_scatter
      = (fallbackTheta k,
         if fixed_scatter then (scatter : WithTop F) else (⊤ : WithTop F)) := by
  have h0 := fit_theta_of_det_eq_zero flux ivar scatter D hA
  refine ⟨h0, rfl, fun j hj => if_neg hj, ?_, ?_⟩
  · simp [fit_pixel, h0]
  · simp [fit_regularized_pixel, h0]

/-- Witness for C2 at the spec's rank-deficient example: two stars with the
two identical design columns `D = [[1, 1], [1, 1]]`, unit inverse variances,
free scatter. -/
theorem fit_theta_singular_fallback_witness :
    (normalMatrix !![(1 : ℚ), 1; 1, 1] (ivarEff (fun _ : Fin 2 => 1) 0)).det = 0 ∧
    (fit_theta (fun _ : Fin 2 => (1 : ℚ)) (fun _ => 1) 0 !![(1 : ℚ), 1; 1, 1]
        = (fallbackTheta 1, none, ivarEff (fun _ => 1) 0) ∧
      fallbackTheta 1 0 = (1 : ℚ) ∧
      (∀ j : Fin 2, j ≠ 0 → fallbackTheta 1 j = (0 : ℚ)) ∧
      fit_pixel (fun _ s => s) id (fun _ : Fin 2 => (1 : ℚ)) (fun _ => 1) 0
          !![(1 : ℚ), 1; 1, 1] false
        = (fallbackTheta 1, (⊤ : WithTop ℚ)) ∧
      fit_regularized_pixel (fun _ t => t) (fun _ q => q) id
          (fun _ : Fin 2 => (1 : ℚ)) (fun _ => 1) 0 1 !![(1 : ℚ), 1; 1, 1] false
        = (fallbackTheta 1, (⊤ : WithTop ℚ))) := by
  have hA : (normalMatrix !![(1 : ℚ), 1; 1, 1] (ivarEff (fun _ : Fin 2 => 1) 0)).det = 0 := by
    simp [normalMatrix, scaledDesign, ivarEff, Matrix.det_fin_two, Matrix.mul_apply,
      Fin.sum_univ_succ]
  have h := fit_theta_singular_fallback (fun _ s => s) (fun _ t => t) (fun _ q => q)
    id false (fun _ : Fin 2 => (1 : ℚ)) (fun _ => 1) 0 1 !![(1 : ℚ), 1; 1, 1] hA
  exact ⟨hA, h.1, h.2.1, h.2.2.1, by simpa using h.2.2.2.1, by simpa using h.2.2.2.2⟩

/-- C4: the regularized per-pixel objective equals
`chi_square + log_det + Λ · L1Norm(theta[1:])`, where the L1 penalty sums
`|theta j|` only over the indices `j ≥ 1`: the bias coefficient `theta 0` is
excluded from the penalty. -/
theorem regularized_objective_excludes_bias
    (lg : F → F) (theta : Fin (k + 1) → F) (flux w : Fin N → F)
    (scatter regularization : F) (D : Matrix (Fin N) (Fin (k + 1)) F) :
    fit_pixel_with_fixed_regularization_and_fixed_scatter lg theta flux w scatter
        regularization D
      = chi_sq theta D flux w + log_det lg w
        + regularization * ∑ j ∈ Finset.univ.filter (fun j : Fin (k + 1) => j ≠ 0), |theta j| := by
  have htail : L1Norm (fun j : Fin k => theta j.succ)
      = ∑ j ∈ Finset.univ.filter (fun j : Fin (k + 1) => j ≠ 0), |theta j| := by
    rw [Finset.sum_filter, Fin.sum_univ_succ]
    simp [L1Norm, Fin.succ_ne_zero]
  rw [fit_pixel_with_fixed_regularization_and_fixed_scatter, htail]

/-- Errors raised by the training entry points: `configError` models the
`ValueError` from `cannon.py` lines 78-80 (fixed scatter requested with
`s2` unset), `typeError` models the `TypeError` raised by `zip(*args)` at
`cannon.py` line 107 when `additional_args` holds a non-iterable `None`. -/
inductive TrainError
  | configError
  | typeError
deriving DecidableEq

/-- The scatter seed array from `cannon.py` lines 83-84:
`np.sqrt(self.s2) if fixed_scatter else 0.01 * np.ones_like(self.dispersion)`.
`np.sqrt` is a black-box numerical primitive modelled by the parameter
`sqrtF`; the `getD` default is never reached, since `train` errors out
first when `fixed_scatter` is set with `s2` unset. -/
def p0seed (sqrtF : F → F) (s2 : Option (Fin P → F)) (fixed_scatter : Bool) :
    Fin P → F :=
  fun i => if fixed_scatter then sqrtF ((s2.getD fun _ => 0) i) else 1 / 100

/-- The `additional_args` list that `CannonModel.train` appends to the
per-pixel argument tuples: absent for the unregularized model, and the
single (possibly `None`) regularization array for the L1 model. -/
inductive ExtraArgs (P : ℕ) (F : Type)
  | noneArgs
  | regArgs (r : Option (Fin P → F))

/-- Embedding of `CannonModel.train` (`cannon.py` lines 66-111).  `flux`
and `ivar` are the transposed arrays (`self.normalized_flux.T`: one row per
pixel); the map over `zip(*args)` becomes the per-pixel application of
`fitter`, which receives the pixel's flux row, ivar row, scatter seed and
(when present) regularization value.  The unpacking
`self.theta, self.s2 = (results[:, :-1], results[:, -1]**2)` is modelled by
the two components of the result, with `wsq` as the squaring of the last
column.  `zip(*args)` with a `None` entry in `additional_args` raises a
`TypeError` before any per-pixel call. -/
def cannonTrain (sqrtF : F → F)
    (fitter : (Fin N → F) → (Fin N → F) → F → Option F → (Fin (k + 1) → F) × WithTop F)
    (flux ivar : Fin P → Fin N → F) (s2 : Option (Fin P → F))
    (fixed_scatter : Bool) (extra : ExtraArgs P F) :
    Except TrainError ((Fin P → Fin (k + 1) → F) × (Fin P → WithTop F)) :=
  if fixed_scatter && s2.isNone then .error .configError
  else
    let p0 := p0seed sqrtF s2 fixed_scatter
    match extra with
    | .regArgs none => .error .typeError
    | .regArgs (some r) =>
        let res := fun i => fitter (flux i) (ivar i) (p0 i) (some (r i))
        .ok (fun i => (res i).1, fun i => wsq (res i).2)
    | .noneArgs =>
        let res := fun i => fitter (flux i) (ivar i) (p0 i) none
        .ok (fun i => (res i).1, fun i => wsq (res i).2)

/-- `CannonModel.train` with its default fitter
`kwargs.pop("function", _fit_pixel)` and no `additional_args`. -/
def cannonModelTrain (sqrtF : F → F) (poS : (F → WithTop F) → F → F) (lg : F → F)
    (flux ivar : Fin P → Fin N → F) (s2 : Option (Fin P → F))
    (fixed_scatter : Bool) (D : Matrix (Fin N) (Fin (k + 1)) F) :
    Except TrainError ((Fin P → Fin (k + 1) → F) × (Fin P → WithTop F)) :=
  cannonTrain sqrtF (fun fl iv s0 _ => fit_pixel poS lg fl iv s0 D fixed_scatter)
    flux ivar s2 fixed_scatter .noneArgs

theorem cannonTrain_noneArgs_eval (sqrtF : F → F)
    (fitter : (Fin N → F) → (Fin N → F) → F → Option F → (Fin (k + 1) → F) × WithTop F)
    (flux ivar : Fin P → Fin N → F) (s2 : Option (Fin P → F)) (fixed_scatter : Bool)
    (h : (fixed_scatter && s2.isNone) = false) :
    cannonTrain sqrtF fitter flux ivar s2 fixed_scatter .noneArgs
      = .ok (fun i => (fitter (flux i) (ivar i) (p0seed sqrtF s2 fixed_scatter i) none).1,
             fun i => wsq (fitter (flux i) (ivar i) (p0seed sqrtF s2 fixed_scatter i) none).2) := by
  simp only [cannonTrain, h, Bool.false_eq_true, if_false]

/-- The test `np.all(self.regularization == 0)` from `regularized.py` line
127.  For `regularization = None` the Python comparison `None == 0`
evaluates to `False`, so `np.all` returns `False`; for an array the
comparison is elementwise. -/
def regAllZero (reg : Option (Fin P → F)) : Bool :=
  match reg with
  | none => false
  | some r => decide (∀ i, r i = 0)

/-- Embedding of `L1RegularizedCannonModel.train` (`regularized.py` lines
112-132): when `not np.all(self.regularization == 0)` the keyword arguments
are updated with `function = _fit_regularized_pixel` and
`additional_args = [self.regularization]`; otherwise the inherited
`CannonModel.train` runs with its default `_fit_pixel` fitter.  The `getD`
default in the regularized fitter wrapper is never reached: a `None`
regularization array fails the `zip` step inside `cannonTrain` first. -/
def l1Train (sqrtF : F → F) (poS : (F → WithTop F) → F → F)
    (poT : ((Fin (k + 1) → F) → F) → (Fin (k + 1) → F) → (Fin (k + 1) → F))
    (poJ : (F × (Fin (k + 1) → F) → F) → F × (Fin (k + 1) → F) → F × (Fin (k + 1) → F))
    (lg : F → F) (flux ivar : Fin P → Fin N → F) (s2 : Option (Fin P → F))
    (reg : Option (Fin P → F)) (fixed_scatter : Bool)
    (D : Matrix (Fin N) (Fin (k + 1)) F) :
    Except TrainError ((Fin P → Fin (k + 1) → F) × (Fin P → WithTop F)) :=
  if !(regAllZero reg) then
    cannonTrain sqrtF
      (fun fl iv s0 r => fit_regularized_pixel poT poJ lg fl iv s0 (r.getD 0) D fixed_scatter)
      flux ivar s2 fixed_scatter (.regArgs reg)
  else
    cannonModelTrain sqrtF poS lg flux ivar s2 fixed_scatter D

/-- C6: calling `train(fixed_scatter=True)` with the `s2` attribute unset
fails immediately with the configuration error, before any per-pixel
optimisation (for every fitter, and for both the unregularized and the
L1-regularized entry point), and no result arrays are produced. -/
theorem train_fixed_scatter_requires_s2 (sqrtF : F → F)
    (fitter : (Fin N → F) → (Fin N → F) → F → Option F → (Fin (k + 1) → F) × WithTop F)
    (poS : (F → WithTop F) → F → F)
    (poT : ((Fin (k + 1) → F) → F) → (Fin (k + 1) → F) → (Fin (k + 1) → F))
    (poJ : (F × (Fin (k + 1) → F) → F) → F × (Fin (k + 1) → F) → F × (Fin (k + 1) → F))
    (lg : F → F) (flux ivar : Fin P → Fin N → F) (extra : ExtraArgs P F)
    (reg : Option (Fin P → F)) (D : Matrix (Fin N) (Fin (k + 1)) F) :
    cannonTrain sqrtF fitter flux ivar none true extra = .error .configError ∧
    cannonModelTrain sqrtF poS lg flux ivar none true D = .error .configError ∧
    l1Train sqrtF poS poT poJ lg flux ivar none reg true D = .error .configError := by
  refine ⟨rfl, rfl, ?_⟩
  unfold l1Train
  by_cases h : regAllZero reg = true <;> simp [h, cannonModelTrain, cannonTrain]

/-- C8: the per-pixel optimiser is seeded with `sqrt(s2)` when
`fixed_scatter` is set and with `0.01` per pixel otherwise, and the
orchestrator stores the square of the returned last component into `s2`
(`inf` squares to `inf`), so stored `s2 i` is the square of the sigma
returned for pixel `i`. -/
theorem train_seeds_sigma_and_stores_square (sqrtF : F → F)
    (fitter : (Fin N → F) → (Fin N → F) → F → Option F → (Fin (k + 1) → F) × WithTop F)
    (flux ivar : Fin P → Fin N → F) (s2 : Option (Fin P → F)) (fixed_scatter : Bool)
    (h : (fixed_scatter && s2.isNone) = false) :
    cannonTrain sqrtF fitter flux ivar s2 fixed_scatter .noneArgs
      = .ok (fun i => (fitter (flux i) (ivar i) (p0seed sqrtF s2 fixed_scatter i) none).1,
             fun i => wsq (fitter (flux i) (ivar i) (p0seed sqrtF s2 fixed_scatter i) none).2) ∧
    (∀ (v : Fin P → F) (i : Fin P), p0seed sqrtF (some v) true i = sqrtF (v i)) ∧
    (∀ (s2' : Option (Fin P → F)) (i : Fin P), p0seed sqrtF s2' false i = 1 / 100) ∧
    (∀ x : F, wsq (x : WithTop F) = ((x ^ 2 : F) : WithTop F)) ∧
    wsq (⊤ : WithTop F) = (⊤ : WithTop F) := by
  refine ⟨?_, fun v i => rfl, fun s2' i => rfl, fun x => rfl, rfl⟩
  simp only [cannonTrain, h, Bool.false_eq_true, if_false]

/-- A synthetic one-pixel, one-star fitter used to instantiate the
orchestrator theorems at a concrete input: it returns its scatter seed as
the sigma. -/
def echoFitter : (Fin 1 → ℚ) → (Fin 1 → ℚ) → ℚ → Option ℚ → (Fin 1 → ℚ) × WithTop ℚ :=
  fun _ _ s0 _ => (fun _ => s0, (s0 : WithTop ℚ))

/-- Witness for C8 with one pixel and one star, free scatter, and a
synthetic fitter returning its seed as the sigma. -/
theorem train_seeds_sigma_and_stores_square_witness :
    ((false && (none : Option (Fin 1 → ℚ)).isNone) = false) ∧
    (cannonTrain (id : ℚ → ℚ) echoFitter
        (fun _ : Fin 1 => fun _ : Fin 1 => 1) (fun _ _ => 1) none false .noneArgs
      = .ok (fun i => (echoFitter
                 ((fun _ : Fin 1 => fun _ : Fin 1 => (1 : ℚ)) i)
                 ((fun _ : Fin 1 => fun _ : Fin 1 => (1 : ℚ)) i)
                 (p0seed id none false i) none).1,
             fun i => wsq (echoFitter
                 ((fun _ : Fin 1 => fun _ : Fin 1 => (1 : ℚ)) i)
                 ((fun _ : Fin 1 => fun _ : Fin 1 => (1 : ℚ)) i)
                 (p0seed id none false i) none).2) ∧
      (∀ (v : Fin 1 → ℚ) (i : Fin 1), p0seed id (some v) true i = id (v i)) ∧
      (∀ (s2' : Option (Fin 1 → ℚ)) (i : Fin 1), p0seed id s2' false i = 1 / 100) ∧
      (∀ x : ℚ, wsq (x : WithTop ℚ) = ((x ^ 2 : ℚ) : WithTop ℚ)) ∧
      wsq (⊤ : WithTop ℚ) = (⊤ : WithTop ℚ)) :=
  ⟨rfl, train_seeds_sigma_and_stores_square id echoFitter _ _ none false rfl⟩

/-- C3: when every pixel's regularization value is exactly zero,
`L1RegularizedCannonModel.train` takes the unregularized fast path: it is
literally the inherited `CannonModel.train` with its default `_fit_pixel`
fitter, so theta and s2 equal the unregularized model's results on the same
inputs; the `_fit_regularized_pixel` branch is selected exactly when the
all-zero test fails, i.e. when some pixel's regularization is non-zero. -/
theorem l1_train_zero_regularization_fast_path (sqrtF : F → F)
    (poS : (F → WithTop F) → F → F)
    (poT : ((Fin (k + 1) → F) → F) → (Fin (k + 1) → F) → (Fin (k + 1) → F))
    (poJ : (F × (Fin (k + 1) → F) → F) → F × (Fin (k + 1) → F) → F × (Fin (k + 1) → F))
    (lg : F → F) (flux ivar : Fin P → Fin N → F) (s2 : Option (Fin P → F))
    (fixed_scatter : Bool) (D : Matrix (Fin N) (Fin (k + 1)) F)
    (r : Fin P → F) (hr : ∀ i, r i = 0) :
    l1Train sqrtF poS poT poJ lg flux ivar s2 (some r) fixed_scatter D
      = cannonModelTrain sqrtF poS lg flux ivar s2 fixed_scatter D ∧
    (∀ r' : Fin P → F, regAllZero (some r') = false ↔ ∃ i, r' i ≠ 0) := by
  constructor
  · have hz : regAllZero (some r) = true := by
      simp [regAllZero]
      exact hr
    simp [l1Train, hz]
  · intro r'
    simp [regAllZero]

/-- Witness for C3 with one pixel, one star and the all-zero regularization
array. -/
theorem l1_train_zero_regularization_fast_path_witness :
    (∀ i : Fin 1, (fun _ : Fin 1 => (0 : ℚ)) i = 0) ∧
    (l1Train (id : ℚ → ℚ) (fun _ s => s) (fun _ t => t) (fun _ q => q) id
        (fun _ : Fin 1 => fun _ : Fin 1 => 1) (fun _ _ => 1) none
        (some fun _ => 0) false !![(1 : ℚ)]
      = cannonModelTrain id (fun _ s => s) id
          (fun _ : Fin 1 => fun _ : Fin 1 => 1) (fun _ _ => 1) none false !![(1 : ℚ)] ∧
    (∀ r' : Fin 1 → ℚ, regAllZero (some r') = false ↔ ∃ i, r' i ≠ 0)) :=
  ⟨fun _ => rfl,
   l1_train_zero_regularization_fast_path id (fun _ s => s) (fun _ t => t) (fun _ q => q)
     id _ _ none false !![(1 : ℚ)] (fun _ => 0) (fun _ => rfl)⟩

theorem fit_pixel_scatter_slot (poS : (F → WithTop F) → F → F) (lg : F → F)
    (flux ivar : Fin N → F) (scatter : F) (D : Matrix (Fin N) (Fin (k + 1)) F)
    (fixed_scatter : Bool) :
    (fit_pixel poS lg flux ivar scatter D fixed_scatter).2
      = if fixed_scatter then (scatter : WithTop F)
        else if (normalMatrix D (ivarEff ivar scatter)).det = 0 then (⊤ : WithTop F)
        else ((poS (fun s => fit_pixel_with_fixed_scatter lg s flux ivar D) scatter : F)
              : WithTop F) := by
  by_cases hd : (normalMatrix D (ivarEff ivar scatter)).det = 0
  · have h0 := fit_theta_of_det_eq_zero flux ivar scatter D hd
    cases fixed_scatter <;> simp [fit_pixel, h0, hd]
  · have h0 := fit_theta_of_det_ne_zero flux ivar scatter D hd
    cases fixed_scatter <;> simp [fit_pixel, h0, hd]

/-- C7 (amended): after a completed training run each stored `s2` entry is
either the square of the returned sigma — hence non-negative — or the
`np.inf` sentinel `⊤`, and the sentinel occurs exactly for the pixels whose
normal-equations matrix was singular at the seed scatter in free-scatter
mode.  (The claim as stated — every entry finite — fails on those singular
pixels: see the counterexample.) -/
theorem trained_s2_square_or_inf (sqrtF : F → F) (poS : (F → WithTop F) → F → F)
    (lg : F → F) (flux ivar : Fin P → Fin N → F) (s2 : Option (Fin P → F))
    (fixed_scatter : Bool) (D : Matrix (Fin N) (Fin (k + 1)) F)
    (res : (Fin P → Fin (k + 1) → F) × (Fin P → WithTop F))
    (h : cannonModelTrain sqrtF poS lg flux ivar s2 fixed_scatter D = .ok res)
    (i : Fin P) :
    (res.2 i = ⊤ ∨ ∃ x : F, res.2 i = ((x ^ 2 : F) : WithTop F) ∧ 0 ≤ x ^ 2) ∧
    (res.2 i = ⊤ ↔ fixed_scatter = false ∧
      (normalMatrix D (ivarEff (ivar i) (p0seed sqrtF s2 fixed_scatter i))).det = 0) := by
  by_cases hb : (fixed_scatter && s2.isNone) = true
  · rw [cannonModelTrain, cannonTrain, if_pos hb] at h
    exact absurd h (by simp)
  · rw [cannonModelTrain, cannonTrain, if_neg hb] at h
    injection h with h'
    subst h'
    have hres : ((fun i => (fit_pixel poS lg (flux i) (ivar i)
          (p0seed sqrtF s2 fixed_scatter i) D fixed_scatter).1,
        fun i => wsq (fit_pixel poS lg (flux i) (ivar i)
          (p0seed sqrtF s2 fixed_scatter i) D fixed_scatter).2) :
          (Fin P → Fin (k + 1) → F) × (Fin P → WithTop F)).2 i
        = wsq (fit_pixel poS lg (flux i) (ivar i)
            (p0seed sqrtF s2 fixed_scatter i) D fixed_scatter).2 := rfl
    rw [hres, fit_pixel_scatter_slot]
    by_cases hd : (normalMatrix D (ivarEff (ivar i) (p0seed sqrtF s2 fixed_scatter i))).det = 0
    · cases fixed_scatter with
      | true =>
          refine ⟨Or.inr ⟨p0seed sqrtF s2 true i, ?_, sq_nonneg _⟩, ?_⟩
          · simp [wsq_coe]
          · simp [wsq_coe, coe_sq_ne_top]
      | false =>
          refine ⟨Or.inl ?_, ?_⟩ <;> simp [wsq_top, hd]
    · cases fixed_scatter with
      | true =>
          refine ⟨Or.inr ⟨p0seed sqrtF s2 true i, ?_, sq_nonneg _⟩, ?_⟩
          · simp [wsq_coe]
          · simp [wsq_coe, coe_sq_ne_top]
      | false =>
          refine ⟨Or.inr ⟨poS (fun s => fit_pixel_with_fixed_scatter lg s (flux i)
              (ivar i) D) (p0seed sqrtF s2 false i), ?_, sq_nonneg _⟩, ?_⟩ <;>
            simp [wsq_coe, coe_sq_ne_top, hd]

/-- The concrete fitter of the C7 counterexample run: one pixel, two stars,
duplicated design columns (so the normal-equations matrix is singular at
every scatter), free scatter, identity optimiser and logarithm. -/
def singFitter : (Fin 2 → ℚ) → (Fin 2 → ℚ) → ℚ → Option ℚ → (Fin 2 → ℚ) × WithTop ℚ :=
  fun fl iv s0 _ => fit_pixel (fun _ s => s) id fl iv s0 !![(1 : ℚ), 1; 1, 1] false

/-- The per-pixel results of the C7 counterexample run, as assembled by the
training orchestrator. -/
def singPayload : (Fin 1 → Fin 2 → ℚ) × (Fin 1 → WithTop ℚ) :=
  (fun i => (singFitter ((fun _ : Fin 1 => fun _ : Fin 2 => 1) i)
      ((fun _ : Fin 1 => fun _ : Fin 2 => 1) i) (p0seed id none false i) none).1,
   fun i => wsq (singFitter ((fun _ : Fin 1 => fun _ : Fin 2 => 1) i)
      ((fun _ : Fin 1 => fun _ : Fin 2 => 1) i) (p0seed id none false i) none).2)

theorem singular_hdet : (normalMatrix !![(1 : ℚ), 1; 1, 1]
    (ivarEff (fun _ : Fin 2 => (1 : ℚ)) ((100 : ℚ)⁻¹))).det = 0 := by
  simp [normalMatrix, scaledDesign, ivarEff, Matrix.det_fin_two, Matrix.mul_apply,
    Fin.sum_univ_succ]

theorem singular_fit_pixel : fit_pixel (fun _ s => s) id (fun _ : Fin 2 => (1 : ℚ))
    (fun _ => 1) ((100 : ℚ)⁻¹) !![(1 : ℚ), 1; 1, 1] false
    = (fallbackTheta 1, (⊤ : WithTop ℚ)) := by
  rw [fit_pixel, fit_theta_of_det_eq_zero (fun _ : Fin 2 => (1 : ℚ)) (fun _ => 1)
    ((100 : ℚ)⁻¹) !![(1 : ℚ), 1; 1, 1] singular_hdet]
  rfl

theorem singFitter_eval :
    singFitter ((fun _ : Fin 1 => fun _ : Fin 2 => 1) (0 : Fin 1))
      ((fun _ : Fin 1 => fun _ : Fin 2 => 1) (0 : Fin 1)) ((100 : ℚ)⁻¹) none
      = (fallbackTheta 1, (⊤ : WithTop ℚ)) :=
  singular_fit_pixel

theorem singular_p0seed : p0seed (id : ℚ → ℚ) none false (0 : Fin 1) = (100 : ℚ)⁻¹ := by
  simp [p0seed]

theorem exceptMap_ok {ε α β : Type} (f : α → β) (x : α) :
    (Except.ok x : Except ε α).map f = .ok (f x) := rfl

/-- The concrete singular free-scatter run shared by the C7 counterexample
and witness: the training call completes and returns the per-pixel
results assembled from `singFitter`. -/
theorem singularRun_eval :
    cannonModelTrain (id : ℚ → ℚ) (fun _ s => s) id
        (fun _ : Fin 1 => fun _ : Fin 2 => 1) (fun _ : Fin 1 => fun _ : Fin 2 => 1)
        none false !![(1 : ℚ), 1; 1, 1]
      = .ok singPayload :=
  cannonTrain_noneArgs_eval id singFitter (fun _ : Fin 1 => fun _ : Fin 2 => 1)
    (fun _ : Fin 1 => fun _ : Fin 2 => 1) none false rfl

/-- Counterexample to C7 as stated: in this completed training run the
stored `s2` entry of pixel 0 is the `np.inf` sentinel `⊤` — not a finite
value (the pixel's normal-equations matrix is rank-deficient, the design
matrix having two identical columns). -/
theorem trained_s2_finite_counterexample :
    (cannonModelTrain (id : ℚ → ℚ) (fun _ s => s) id
        (fun _ : Fin 1 => fun _ : Fin 2 => 1) (fun _ : Fin 1 => fun _ : Fin 2 => 1)
        none false !![(1 : ℚ), 1; 1, 1]).map (fun r => r.2 (0 : Fin 1))
      = .ok (⊤ : WithTop ℚ) := by
  rewrite [singularRun_eval, exceptMap_ok]
  refine congrArg Except.ok ?_
  show wsq (singFitter ((fun _ : Fin 1 => fun _ : Fin 2 => 1) (0 : Fin 1))
      ((fun _ : Fin 1 => fun _ : Fin 2 => 1) (0 : Fin 1))
      (p0seed id none false (0 : Fin 1)) none).2 = ⊤
  rewrite [singular_p0seed]
  exact (congrArg (fun z => wsq z.2) singFitter_eval).trans wsq_top

/-- Witness for the amended C7 at the concrete singular run. -/
theorem trained_s2_square_or_inf_witness :
    (cannonModelTrain (id : ℚ → ℚ) (fun _ s => s) id
        (fun _ : Fin 1 => fun _ : Fin 2 => 1) (fun _ : Fin 1 => fun _ : Fin 2 => 1)
        none false !![(1 : ℚ), 1; 1, 1]
      = .ok singPayload) ∧
    ((singPayload.2 (0 : Fin 1) = ⊤ ∨
      ∃ x : ℚ, singPayload.2 (0 : Fin 1) = ((x ^ 2 : ℚ) : WithTop ℚ) ∧ 0 ≤ x ^ 2) ∧
     (singPayload.2 (0 : Fin 1) = ⊤ ↔ false = false ∧
       (normalMatrix !![(1 : ℚ), 1; 1, 1]
         (ivarEff ((fun _ : Fin 1 => fun _ : Fin 2 => (1 : ℚ)) (0 : Fin 1))
           (p0seed id none false (0 : Fin 1)))).det = 0)) :=
  ⟨singularRun_eval,
   trained_s2_square_or_inf id (fun _ s => s) id _ _ none false _ singPayload
     singularRun_eval (0 : Fin 1)⟩

/-- C9: in the unregularized free-scatter path, when the normal-equations
matrix is non-singular at the seed (so the scatter optimisation runs) and at
the optimised scatter, `_fit_pixel` returns the optimiser's scatter together
with theta recomputed by `_fit_theta` at that very scatter — and that theta
satisfies the weighted least-squares normal equations there, so the
returned pair is self-consistent. -/
theorem fit_pixel_free_scatter_self_consistent
    (poS : (F → WithTop F) → F → F) (lg : F → F) (flux ivar : Fin N → F)
    (scatter : F) (D : Matrix (Fin N) (Fin (k + 1)) F)
    (h0 : (normalMatrix D (ivarEff ivar scatter)).det ≠ 0)
    (h1 : (normalMatrix D (ivarEff ivar
        (poS (fun s => fit_pixel_with_fixed_scatter lg s flux ivar D) scatter))).det ≠ 0) :
    fit_pixel poS lg flux ivar scatter D false
      = ((fit_theta flux ivar
            (poS (fun s => fit_pixel_with_fixed_scatter lg s flux ivar D) scatter) D).1,
         ((poS (fun s => fit_pixel_with_fixed_scatter lg s flux ivar D) scatter : F)
           : WithTop F)) ∧
    (normalMatrix D (ivarEff ivar
        (poS (fun s => fit_pixel_with_fixed_scatter lg s flux ivar D) scatter))).mulVec
        (fit_pixel poS lg flux ivar scatter D false).1
      = D.transpose.mulVec (fun i => flux i * ivarEff ivar
          (poS (fun s => fit_pixel_with_fixed_scatter lg s flux ivar D) scatter) i) := by
  have hsome : (fit_theta flux ivar scatter D).2.1.isNone = false := by
    rw [fit_theta_of_det_ne_zero flux ivar scatter D h0]
    rfl
  have heq : fit_pixel poS lg flux ivar scatter D false
      = ((fit_theta flux ivar
            (poS (fun s => fit_pixel_with_fixed_scatter lg s flux ivar D) scatter) D).1,
         ((poS (fun s => fit_pixel_with_fixed_scatter lg s flux ivar D) scatter : F)
           : WithTop F)) := by
    simp [fit_pixel, hsome]
  refine ⟨heq, ?_⟩
  rw [heq]
  exact fit_theta_mulVec _ _ _ _ h1

/-- Witness for C9 at a concrete input (one star, bias-only design matrix,
identity optimiser): non-singular at the seed and at the optimised
scatter. -/
theorem fit_pixel_free_scatter_self_consistent_witness :
    (normalMatrix !![(1 : ℚ)] (ivarEff (fun _ : Fin 1 => 1) 0)).det ≠ 0 ∧
    (normalMatrix !![(1 : ℚ)] (ivarEff (fun _ : Fin 1 => 1)
        ((fun _ s => s) (fun s => fit_pixel_with_fixed_scatter id s
            (fun _ : Fin 1 => (2 : ℚ)) (fun _ => 1) !![(1 : ℚ)]) 0))).det ≠ 0 ∧
    (fit_pixel (fun _ s => s) id (fun _ : Fin 1 => (2 : ℚ)) (fun _ => 1) 0 !![(1 : ℚ)] false
      = ((fit_theta (fun _ : Fin 1 => (2 : ℚ)) (fun _ => 1)
            ((fun _ s => s) (fun s => fit_pixel_with_fixed_scatter id s
                (fun _ : Fin 1 => (2 : ℚ)) (fun _ => 1) !![(1 : ℚ)]) 0) !![(1 : ℚ)]).1,
         (((fun _ s => s) (fun s => fit_pixel_with_fixed_scatter id s
              (fun _ : Fin 1 => (2 : ℚ)) (fun _ => 1) !![(1 : ℚ)]) 0 : ℚ) : WithTop ℚ)) ∧
    (normalMatrix !![(1 : ℚ)] (ivarEff (fun _ : Fin 1 => 1)
        ((fun _ s => s) (fun s => fit_pixel_with_fixed_scatter id s
            (fun _ : Fin 1 => (2 : ℚ)) (fun _ => 1) !![(1 : ℚ)]) 0))).mulVec
        (fit_pixel (fun _ s => s) id (fun _ : Fin 1 => (2 : ℚ)) (fun _ => 1) 0
          !![(1 : ℚ)] false).1
      = (!![(1 : ℚ)]).transpose.mulVec (fun i => (fun _ : Fin 1 => (2 : ℚ)) i
          * ivarEff (fun _ : Fin 1 => 1)
              ((fun _ s => s) (fun s => fit_pixel_with_fixed_scatter id s
                  (fun _ : Fin 1 => (2 : ℚ)) (fun _ => 1) !![(1 : ℚ)]) 0) i)) := by
  have hd : (normalMatrix !![(1 : ℚ)] (ivarEff (fun _ : Fin 1 => 1) 0)).det ≠ 0 := by
    simp [normalMatrix, scaledDesign, ivarEff, Matrix.det_fin_one, Matrix.mul_apply]
  exact ⟨hd, hd, fit_pixel_free_scatter_self_consistent _ _ _ _ _ _ hd hd⟩

/-- A float value as validated by the regularization setter: numpy floats
are finite reals (idealised as rationals), signed infinities, or NaN. -/
inductive Fl
  | fin (q : ℚ)
  | pinf
  | ninf
  | nan
deriving DecidableEq, Inhabited

/-- The elementwise comparison `0 > x` used in `any(0 > regularization)`
(`regularized.py` line 104): true for negative finite values and `-inf`,
false for `+inf` and (as for every comparison) for NaN. -/
def Fl.negative : Fl → Bool
  | .fin q => decide (q < 0)
  | .pinf => false
  | .ninf => true
  | .nan => false

/-- `np.isfinite` as used in the setter (`regularized.py` line 105). -/
def Fl.isFinite : Fl → Bool
  | .fin _ => true
  | _ => false

/-- The two rejection modes of the regularization setter: the
length-mismatch `ValueError` of `regularized.py` lines 99-102 and the
sign/finiteness `ValueError` of lines 106-107. -/
inductive RegError
  | sizeMismatch
  | notPositiveFinite
deriving DecidableEq

/-- The validation applied to the (possibly broadcast) array, `regularized.py`
lines 104-108: reject when `any(0 > regularization)` or when some entry is
not finite, else store. -/
def regCheckStore (xs : List Fl) : Except RegError (Option (List Fl)) :=
  if xs.any Fl.negative || !(xs.all Fl.isFinite) then .error .notPositiveFinite
  else .ok (some xs)

/-- Embedding of the `regularization` setter (`regularized.py` lines
80-109).  The input is the flattened `np.array(regularization).flatten()`
(a scalar becomes a one-element list), or `None`, which is stored as-is
with no validation.  The broadcast
`np.ones_like(self.dispersion) * regularization[0]` is `List.replicate P`
of the scalar, since `1 * x = x` for every float including the infinities
and NaN. -/
def setRegularization (P : ℕ) (input : Option (List Fl)) :
    Except RegError (Option (List Fl)) :=
  match input with
  | none => .ok none
  | some xs0 =>
      if xs0.length = 1 then regCheckStore (List.replicate P xs0.headI)
      else if xs0.length ≠ P then .error .sizeMismatch
      else regCheckStore xs0

theorem regCheckStore_ok (xs ys : List Fl) (h : regCheckStore xs = .ok (some ys)) :
    ys = xs ∧ ∀ x ∈ xs, Fl.negative x = false ∧ Fl.isFinite x = true := by
  unfold regCheckStore at h
  by_cases hc : (xs.any Fl.negative || !(xs.all Fl.isFinite)) = true
  · rw [if_pos hc] at h
    exact absurd h (by simp)
  · rw [if_neg hc] at h
    injection h with h'
    injection h' with h''
    rw [Bool.or_eq_true, not_or] at hc
    obtain ⟨hany, hall⟩ := hc
    have hall' : xs.all Fl.isFinite = true := by
      rcases hb : xs.all Fl.isFinite with _ | _
      · exact absurd (by rw [hb]; rfl) hall
      · rfl
    refine ⟨h''.symm, fun x hx => ?_⟩
    constructor
    · rcases hb : Fl.negative x with _ | _
      · rfl
      · exact absurd (List.any_eq_true.mpr ⟨x, hx, hb⟩) hany
    · exact List.all_eq_true.mp hall' x hx

theorem regCheckStore_error (xs : List Fl)
    (h : xs.any Fl.negative = true ∨ xs.all Fl.isFinite = false) :
    regCheckStore xs = .error .notPositiveFinite := by
  unfold regCheckStore
  refine if_pos ?_
  rcases h with h | h <;> simp [h]

theorem Fl.nonneg_of (x : Fl) (h1 : Fl.negative x = false) (h2 : Fl.isFinite x = true) :
    ∃ q : ℚ, x = .fin q ∧ 0 ≤ q := by
  cases x with
  | fin q =>
      refine ⟨q, rfl, not_lt.mp ?_⟩
      simpa [Fl.negative] using h1
  | pinf => simp [Fl.isFinite] at h2
  | ninf => simp [Fl.negative] at h1
  | nan => simp [Fl.isFinite] at h2

/-- C5: the regularization setter broadcasts a scalar to a length-`P`
array, rejects an array whose length is neither 1 nor `P` with the size
error, and rejects any value containing a negative or non-finite entry with
the validation error (for a scalar, whenever the model has at least one
pixel), all at assignment time; after a successful non-`None` assignment
every stored entry is a finite non-negative value. -/
theorem regularization_setter_validates (P : ℕ) :
    (∀ input xs, setRegularization P input = .ok (some xs) →
        xs.length = P ∧ ∀ x ∈ xs, ∃ q : ℚ, x = .fin q ∧ 0 ≤ q) ∧
    (∀ x : Fl, setRegularization P (some [x]) = regCheckStore (List.replicate P x)) ∧
    (∀ xs0 : List Fl, xs0.length ≠ 1 → xs0.length ≠ P →
        setRegularization P (some xs0) = .error .sizeMismatch) ∧
    (∀ xs0 : List Fl, xs0.length = P →
        xs0.any Fl.negative = true ∨ xs0.all Fl.isFinite = false →
        setRegularization P (some xs0) = .error .notPositiveFinite) ∧
    (∀ x : Fl, P ≠ 0 → Fl.negative x = true ∨ Fl.isFinite x = false →
        setRegularization P (some [x]) = .error .notPositiveFinite) := by
  have hbroadcast : ∀ x : Fl,
      setRegularization P (some [x]) = regCheckStore (List.replicate P x) := fun x => rfl
  refine ⟨?_, hbroadcast, ?_, ?_, ?_⟩
  · intro input xs h
    cases input with
    | none => exact absurd h (by simp [setRegularization])
    | some xs0 =>
        rw [setRegularization] at h
        by_cases h1 : xs0.length = 1
        · rw [if_pos h1] at h
          obtain ⟨hxs, hprop⟩ := regCheckStore_ok _ _ h
          subst hxs
          refine ⟨List.length_replicate .., fun x hx => ?_⟩
          obtain ⟨hneg, hfin⟩ := hprop x hx
          exact Fl.nonneg_of x hneg hfin
        · rw [if_neg h1] at h
          by_cases h2 : xs0.length ≠ P
          · rw [if_pos h2] at h
            exact absurd h (by simp)
          · rw [if_neg h2] at h
            obtain ⟨hxs, hprop⟩ := regCheckStore_ok _ _ h
            subst hxs
            refine ⟨not_not.mp h2, fun x hx => ?_⟩
            obtain ⟨hneg, hfin⟩ := hprop x hx
            exact Fl.nonneg_of x hneg hfin
  · intro xs0 h1 h2
    rw [setRegularization, if_neg h1, if_pos h2]
  · intro xs0 hlen hbad
    by_cases h1 : xs0.length = 1
    · obtain ⟨a, ha⟩ := List.length_eq_one.mp h1
      subst ha
      have hP : P = 1 := by
        rw [← hlen, h1]
      subst hP
      rw [setRegularization, if_pos h1]
      exact regCheckStore_error _ (by simpa using hbad)
    · rw [setRegularization, if_neg h1, if_neg (not_not_intro hlen)]
      exact regCheckStore_error _ hbad
  · intro x hP hbad
    rw [hbroadcast x]
    refine regCheckStore_error _ ?_
    rcases hbad with hb | hb
    · exact Or.inl (List.any_eq_true.mpr ⟨x, List.mem_replicate.mpr ⟨hP, rfl⟩, hb⟩)
    · refine Or.inr (Bool.eq_false_iff.mpr fun hall => ?_)
      have := List.all_eq_true.mp hall x (List.mem_replicate.mpr ⟨hP, rfl⟩)
      rw [hb] at this
      exact Bool.false_ne_true this

/-- Witness for C5: a valid two-pixel assignment is stored with finite
non-negative entries, and the spec scenario `regularization = -1` is
rejected at assignment time. -/
theorem regularization_setter_validates_witness :
    (setRegularization 2 (some [Fl.fin 1, Fl.fin 2]) = .ok (some [Fl.fin 1, Fl.fin 2])) ∧
    ([Fl.fin 1, Fl.fin 2].length = 2 ∧
      ∀ x ∈ [Fl.fin 1, Fl.fin 2], ∃ q : ℚ, x = .fin q ∧ 0 ≤ q) ∧
    ((3 : ℕ) ≠ 0 ∧ (Fl.negative (Fl.fin (-1)) = true ∨ Fl.isFinite (Fl.fin (-1)) = false)) ∧
    setRegularization 3 (some [Fl.fin (-1)]) = .error .notPositiveFinite := by
  have e1 : Fl.negative (Fl.fin 1) = false := by
    simp [Fl.negative]
  have e2 : Fl.negative (Fl.fin 2) = false := by
    simp [Fl.negative]
  have hneg : Fl.negative (Fl.fin (-1)) = true := by
    simp [Fl.negative]
  have hok : setRegularization 2 (some [Fl.fin 1, Fl.fin 2]) = .ok (some [Fl.fin 1, Fl.fin 2]) := by
    simp [setRegularization, regCheckStore, e1, e2, Fl.isFinite]
  exact ⟨hok, (regularization_setter_validates 2).1 _ _ hok,
    ⟨by norm_num, Or.inl hneg⟩,
    (regularization_setter_validates 3).2.2.2.2 _ (by norm_num) (Or.inl hneg)⟩

/-- C10 (amended): assigning `None` to the regularization is accepted and
stored with no validation; at the next `train()` call the all-zero
fast-path test is falsy for `None` (so the regularized fitter is selected),
but the call then fails with the `TypeError` raised by `zip(*args)` (the
`None` additional argument is not iterable) before any per-pixel work, so
`None` is never passed as a pixel's regularization value. -/
theorem regularization_none_selects_regularized_then_type_errors
    (sqrtF : F → F) (poS : (F → WithTop F) → F → F)
    (poT : ((Fin (k + 1) → F) → F) → (Fin (k + 1) → F) → (Fin (k + 1) → F))
    (poJ : (F × (Fin (k + 1) → F) → F) → F × (Fin (k + 1) → F) → F × (Fin (k + 1) → F))
    (lg : F → F) (flux ivar : Fin P → Fin N → F) (s2 : Option (Fin P → F))
    (fixed_scatter : Bool) (D : Matrix (Fin N) (Fin (k + 1)) F)
    (h : (fixed_scatter && s2.isNone) = false) :
    setRegularization P none = .ok none ∧
    regAllZero (none : Option (Fin P → F)) = false ∧
    l1Train sqrtF poS poT poJ lg flux ivar s2 none fixed_scatter D
      = .error .typeError := by
  refine ⟨rfl, rfl, ?_⟩
  show cannonTrain sqrtF
      (fun fl iv s0 r => fit_regularized_pixel poT poJ lg fl iv s0 (r.getD 0) D fixed_scatter)
      flux ivar s2 fixed_scatter (.regArgs none) = .error .typeError
  simp [cannonTrain, h]

/-- Counterexample to C10 as stated: with `regularization = None`, the
concrete training call does not run the regularized per-pixel fit with a
`None` regularization value — it fails with the `TypeError` from
`zip(*args)` instead. -/
theorem regularization_none_type_error_counterexample :
    l1Train (id : ℚ → ℚ) (fun _ s => s) (fun _ t => t) (fun _ q => q) id
        (fun _ : Fin 1 => fun _ : Fin 1 => 1) (fun _ _ => 1) none none false !![(1 : ℚ)]
      = .error .typeError := rfl

/-- Witness for the amended C10 at a concrete one-pixel model. -/
theorem regularization_none_behavior_witness :
    ((false && (none : Option (Fin 1 → ℚ)).isNone) = false) ∧
    (setRegularization 1 none = .ok none ∧
     regAllZero (none : Option (Fin 1 → ℚ)) = false ∧
     l1Train (id : ℚ → ℚ) (fun _ s => s) (fun _ t => t) (fun _ q => q) id
        (fun _ : Fin 1 => fun _ : Fin 1 => 1) (fun _ _ => 1) none none false !![(1 : ℚ)]
      = .error .typeError) :=
  ⟨rfl, regularization_none_selects_regularized_then_type_errors id (fun _ s => s)
    (fun _ t => t) (fun _ q => q) id (fun _ : Fin 1 => fun _ : Fin 1 => 1) (fun _ _ => 1)
    none false !![(1 : ℚ)] rfl⟩

end AnniesLasso
